import Mathlib

/-
Verification development for the Moon-Modeler backend.

Shallow embedding of the two core subsystems:
  * the versioned graph store (`src/services/projects.service.ts`:
    `saveDiagram`, `restoreVersion`) together with its content validator
    (`src/services/projects.validator.ts`), and
  * the document-database introspector
    (`src/services/import/mongo.introspector.ts`).

JSON values are modelled by a mutual inductive (`Json`/`JsonArr`/`JsonObj`)
so that all functions are structurally recursive and kernel-reducible.
JavaScript truthiness, property access (last duplicate key wins),
`JSON.stringify`, and `String.prototype.replace` (first occurrence only)
are embedded explicitly.  The SHA-256 content hash is modelled by the
serialized string itself (an injective stand-in: the code only ever
compares hashes for equality, and correctness of the hash model rests on
collision-freeness, exactly as the spec assumes).

The Prisma-backed database is modelled by an explicit `Store` (projects
plus an append-only snapshot list).  Every service operation threads the
store, so that a thrown error also reports the store at the moment of the
throw — mutations performed before an exception are kept, as in the real
code.  `Date.now()` and generated cuids are passed in as oracle
parameters (`now`, `snapId`).
-/

mutual
inductive Json where
  | null : Json
  | bool (b : Bool) : Json
  | num (n : Int) : Json
  | str (s : String) : Json
  | arr (xs : JsonArr) : Json
  | obj (fs : JsonObj) : Json
inductive JsonArr where
  | nil : JsonArr
  | cons (hd : Json) (tl : JsonArr) : JsonArr
inductive JsonObj where
  | nil : JsonObj
  | cons (k : String) (v : Json) (tl : JsonObj) : JsonObj
end

/-- JavaScript truthiness of a JSON value (`!json` in the validator,
`data || {}` in the hash).  Objects and arrays are always truthy. -/
def truthy : Json → Bool
  | .null => false
  | .bool b => b
  | .num n => n != 0
  | .str s => s != ""
  | .arr _ => true
  | .obj _ => true

/-- Escape of one character inside a JSON string literal, as
`JSON.stringify` performs it (quote and backslash; other characters are
kept verbatim in this model). -/
def jsEscapeChar (c : Char) : String :=
  if c = '"' then "\\\""
  else if c = '\\' then "\\\\"
  else String.singleton c

/-- Escape of a whole string for `JSON.stringify`. -/
def jsEscape (s : String) : String :=
  s.data.foldl (fun acc c => acc ++ jsEscapeChar c) ""

mutual
/-- Model of `JSON.stringify`: canonical serialization of a JSON value
(keys in insertion order, no whitespace). -/
def serialize : Json → String
  | .null => "null"
  | .bool true => "true"
  | .bool false => "false"
  | .num n => toString n
  | .str s => "\"" ++ jsEscape s ++ "\""
  | .arr xs => "[" ++ serializeArr xs ++ "]"
  | .obj fs => "\x7b" ++ serializeObj fs ++ "\x7d"
/-- Serialization of array elements, comma separated. -/
def serializeArr : JsonArr → String
  | .nil => ""
  | .cons x .nil => serialize x
  | .cons x tl => serialize x ++ "," ++ serializeArr tl
/-- Serialization of object entries, comma separated. -/
def serializeObj : JsonObj → String
  | .nil => ""
  | .cons k v .nil => "\"" ++ jsEscape k ++ "\":" ++ serialize v
  | .cons k v tl => "\"" ++ jsEscape k ++ "\":" ++ serialize v ++ "," ++ serializeObj tl
end

/-- JavaScript property read on an object: with duplicate keys the last
occurrence wins (as after `JSON.parse`); a missing key reads as
`undefined`, which we fold into `Json.null` (both are falsy). -/
def jsGetObj : JsonObj → String → Option Json
  | .nil, _ => none
  | .cons k v tl, key =>
    match jsGetObj tl key with
    | some r => some r
    | none => if k = key then some v else none

/-- Whether a JSON value is an array (`Array.isArray`). -/
def isArr : Json → Bool
  | .arr _ => true
  | _ => false

/-- Errors thrown by `ProjectsValidator.validateDiagram`, one constructor
per distinct `throw new Error(...)` site. -/
inductive ValidationError where
  | sizeLimit : ValidationError
  | rootNotObject : ValidationError
  | nodesNotArray : ValidationError
  | edgesNotArray : ValidationError
  | maliciousKey (key : String) : ValidationError
deriving DecidableEq

mutual
/-- Embedding of `ProjectsValidator.scanForMaliciousKeys`: depth-first
scan over object keys (in order), rejecting `__proto__`, `constructor`
and `prototype`; non-objects are ignored; arrays are recursed into (a
JS `for..in` over an array visits its index keys, which are never in
the denylist, and recursion descends into the elements). -/
def scanForMaliciousKeys : Json → Except ValidationError Unit
  | .obj fs => scanObjEntries fs
  | .arr xs => scanArrElems xs
  | _ => Except.ok ()
/-- Scan of the elements of a JSON array. -/
def scanArrElems : JsonArr → Except ValidationError Unit
  | .nil => Except.ok ()
  | .cons x tl =>
    match scanForMaliciousKeys x with
    | .error e => .error e
    | .ok _ => scanArrElems tl
/-- Scan of the entries of a JSON object: first the key is checked
against the denylist, then the value is recursed into, then the
remaining entries. -/
def scanObjEntries : JsonObj → Except ValidationError Unit
  | .nil => Except.ok ()
  | .cons k v tl =>
    if k = "__proto__" ∨ k = "constructor" ∨ k = "prototype" then
      .error (.maliciousKey k)
    else
      match scanForMaliciousKeys v with
      | .error e => .error e
      | .ok _ => scanObjEntries tl
end

/-- Embedding of `ProjectsValidator.validateDiagram`.  Falsy content is
accepted outright ("Empty is valid (new project)"); then the serialized
size is checked against 5 MiB; then the root must be a non-array object;
then `nodes`/`edges`, when truthy, must be arrays; finally the recursive
key scan runs.  Returns `.ok true` exactly when the content is accepted. -/
def validateDiagram (json : Json) : Except ValidationError Bool :=
  if truthy json = false then .ok true
  else if (serialize json).length > 5 * 1024 * 1024 then .error .sizeLimit
  else
    match json with
    | .obj fs =>
      let nodesVal := (jsGetObj fs "nodes").getD Json.null
      if truthy nodesVal && !(isArr nodesVal) then .error .nodesNotArray
      else
        let edgesVal := (jsGetObj fs "edges").getD Json.null
        if truthy edgesVal && !(isArr edgesVal) then .error .edgesNotArray
        else
          match scanForMaliciousKeys (Json.obj fs) with
          | .error e => .error e
          | .ok _ => .ok true
    | _ => .error .rootNotObject





/-- Embedding of `ProjectsService.createHash`:
`sha256(JSON.stringify(data || {}))`.  The hash is modelled by the
serialized string itself — the code only compares hashes for equality,
and the model identifies hash equality with serialization equality
(collision-freeness, as the spec's fingerprint contract assumes). -/
def createHash (data : Json) : String :=
  serialize (if truthy data then data else Json.obj .nil)

/-- Row of the `Project` table, restricted to the columns the save /
restore engine reads or writes (`name`, `type`, `description` and the
timestamps play no role in these operations). -/
structure Project where
  id : String
  userId : String
  teamId : Option String
  content : Json
  version : Nat


/-- Row of the `ProjectVersion` table (a version snapshot).
`createdAt` is in milliseconds. -/
structure Snapshot where
  id : String
  projectId : String
  content : Json
  description : String
  createdAt : Nat


/-- The backing database: the projects table and the append-only
snapshot table. -/
structure Store where
  projects : List Project
  snapshots : List Snapshot


/-- Errors of `ApiError` raised by the service, one constructor per
factory used (`validation` wraps the validator's thrown error). -/
inductive ApiError where
  | validation (e : ValidationError) : ApiError
  | notFound (resource id : String) : ApiError
  | conflict (msg : String) : ApiError
  | badRequest (msg : String) : ApiError
deriving DecidableEq

/-- Lookup of the (unique) row with the given id. -/
def findRow : List Project → String → Option Project
  | [], _ => none
  | p :: tl, pid => if p.id == pid then some p else findRow tl pid

/-- Replacement of the (unique) row with the given id. -/
def updateRows : List Project → String → Project → List Project
  | [], _, _ => []
  | q :: tl, pid, p2 => if q.id == pid then p2 :: tl else q :: updateRows tl pid p2

/-- Embedding of `prisma.project.findUnique({ where: { id } })`. -/
def findUnique (s : Store) (pid : String) : Option Project :=
  findRow s.projects pid

/-- The row with the greatest `createdAt` among a list of snapshots —
the semantics of `findFirst({ orderBy: { createdAt: 'desc' } })`
(tie-break unspecified by the database; this model keeps the earlier
row). -/
def snapMax : List Snapshot → Option Snapshot
  | [] => none
  | x :: tl =>
    match snapMax tl with
    | none => some x
    | some y => if x.createdAt ≥ y.createdAt then some x else some y

/-- Embedding of the `lastVersion` query of `saveDiagram`:
`projectVersion.findFirst({ where: { projectId }, orderBy: { createdAt: 'desc' } })`. -/
def lastVersionQuery (s : Store) (pid : String) : Option Snapshot :=
  snapMax (s.snapshots.filter (fun v => v.projectId == pid))

/-- Embedding of
`prisma.project.update({ where: { id }, data: { content, version: { increment: 1 } } })`.
The increment is applied to the row as currently stored (Prisma's atomic
increment), not to any previously read copy. -/
def updateProject (s : Store) (pid : String) (content : Json) :
    Store × Option Project :=
  match findRow s.projects pid with
  | none => (s, none)
  | some p =>
    let p2 : Project := { p with content := content, version := p.version + 1 }
    ({ s with projects := updateRows s.projects pid p2 }, some p2)

/-- Milliseconds in the snapshot-throttling window (`FIVE_MINUTES`). -/
def FIVE_MINUTES : Nat := 5 * 60 * 1000

/-- Outcome of the read-and-check phase of `saveDiagram` (everything up
to and including the optimistic-locking check). -/
inductive ReadOutcome where
  | halt (e : ApiError) : ReadOutcome
  | proceed (current : Project) : ReadOutcome

/-- Steps 1–3 of `saveDiagram`: validation, the non-transactional
`findUnique` read, and the optimistic-locking check against the version
just read.  No write happens in this phase. -/
def saveDiagramRead (s : Store) (projectId : String) (content : Json)
    (expectedVersion : Option Nat) : ReadOutcome :=
  match validateDiagram content with
  | .error e => .halt (.validation e)
  | .ok _ =>
    match findUnique s projectId with
    | none => .halt (.notFound "Project" projectId)
    | some current =>
      match expectedVersion with
      | some v =>
        if current.version ≠ v then
          .halt (.conflict "Project has been modified by another user. Reload required.")
        else .proceed current
      | none => .proceed current

/-- JavaScript `q ?? {}` on the stored content (null-coalescing; only
`null`/`undefined` coalesce, falsy non-null values do not). -/
def coalesce (q : Json) : Json :=
  match q with
  | .null => Json.obj .nil
  | c => c

/-- The snapshot row `saveDiagram` inserts: the OLD (pre-mutation)
content, with the forced-restore description when `forceSnapshot` is
set. -/
def backupSnap (pid : String) (q : Json) (forced : Bool) (now : Nat) (sid : String) :
    Snapshot :=
  { id := sid, projectId := pid, content := coalesce q,
    description := if forced then "Backup before Restore" else "Auto-save (Smart)",
    createdAt := now }

/-- Step 4 of `saveDiagram`, the auto-versioning (smart-throttling)
logic: when the fingerprints differ or a snapshot is forced, and the
throttle admits it (forced, or no previous snapshot, or the last one is
older than the window), insert a snapshot of the CURRENT (pre-mutation)
content as read in the read phase. -/
def snapshotPhase (s : Store) (projectId : String) (content : Json)
    (current : Project) (forceSnapshot : Bool) (now : Nat) (snapId : String) : Store :=
  if createHash current.content != createHash content || forceSnapshot then
    if forceSnapshot ||
        (match lastVersionQuery s projectId with
         | none => true
         | some lv => decide (now - lv.createdAt > FIVE_MINUTES)) then
      { s with snapshots :=
          s.snapshots ++ [backupSnap projectId current.content forceSnapshot now snapId] }
    else s
  else s

/-- Steps 4–5 of `saveDiagram`: the snapshot phase, followed by the
live update with atomic version increment.  `now` is `Date.now()` at
the `findFirst`/`create` step and `snapId` the cuid the database
generates for a created snapshot row. -/
def saveDiagramWrite (s : Store) (projectId : String) (content : Json)
    (current : Project) (forceSnapshot : Bool) (now : Nat) (snapId : String) :
    Store × Except ApiError Project :=
  match updateProject (snapshotPhase s projectId content current forceSnapshot now snapId)
      projectId content with
  | (s2, some p) => (s2, .ok p)
  | (s2, none) => (s2, .error (.notFound "Project" projectId))

/-- Embedding of `ProjectsService.saveDiagram`.  The `userId` argument
is carried for signature fidelity; the RBAC block in the source is an
empty TODO and has no effect.  Returns the store after the call together
with the result (`.ok` with the updated row, or the thrown `ApiError`). -/
def saveDiagram (s : Store) (projectId : String) (content : Json) (userId : String)
    (expectedVersion : Option Nat) (forceSnapshot : Bool) (now : Nat) (snapId : String) :
    Store × Except ApiError Project :=
  match saveDiagramRead s projectId content expectedVersion with
  | .halt e => (s, .error e)
  | .proceed current => saveDiagramWrite s projectId content current forceSnapshot now snapId

/-- Embedding of `ProjectsService.restoreVersion`: look up the snapshot
by id, reject a snapshot of a different project, then delegate to
`saveDiagram` with the snapshot's content, no `expectedVersion`, and
`forceSnapshot := true`.  (The audit notification and log line have no
effect on the store.) -/
def restoreVersion (s : Store) (projectId versionId userId : String)
    (now : Nat) (snapId : String) : Store × Except ApiError Project :=
  match s.snapshots.find? (fun v => v.id == versionId) with
  | none => (s, .error (.notFound "Version" versionId))
  | some version =>
    if version.projectId ≠ projectId then
      (s, .error (.badRequest "Version does not belong to this project"))
    else
      saveDiagram s projectId version.content userId none true now snapId

/-- Two concurrent `saveDiagram` calls on the same project under the
interleaving in which both perform their (non-transactional)
`findUnique` read and optimistic-locking check before either performs
its write phase.  Every `await` in the source is a scheduling point and
the source takes no transaction and no lock, so this interleaving is
admissible; each caller's write phase then runs to completion
uninterrupted (itself one admissible schedule of the finer await
points). -/
def racedSaves (s : Store) (projectId : String) (c1 c2 : Json) (uid1 uid2 : String)
    (ev : Option Nat) (t1 t2 : Nat) (sid1 sid2 : String) :
    Store × Except ApiError Project × Except ApiError Project :=
  match saveDiagramRead s projectId c1 ev, saveDiagramRead s projectId c2 ev with
  | .proceed cur1, .proceed cur2 =>
    let r1 := saveDiagramWrite s projectId c1 cur1 false t1 sid1
    let r2 := saveDiagramWrite r1.1 projectId c2 cur2 false t2 sid2
    (r2.1, r1.2, r2.2)
  | .halt e1, .proceed cur2 =>
    let r2 := saveDiagramWrite s projectId c2 cur2 false t2 sid2
    (r2.1, .error e1, r2.2)
  | .proceed cur1, .halt e2 =>
    let r1 := saveDiagramWrite s projectId c1 cur1 false t1 sid1
    (r1.1, r1.2, .error e2)
  | .halt e1, .halt e2 => (s, .error e1, .error e2)

/-- Runtime shape of a sampled BSON value, as far as
`MongoIntrospector.mapType` inspects it: `mapType` looks only at the
top-level tag (null check, `Array.isArray`, the ObjectId shim check,
`instanceof Date`, `typeof`), never at elements or entries, so array and
sub-document contents are not modelled. -/
inductive MValue where
  | mnull : MValue
  | mbool (b : Bool) : MValue
  | mnum (n : Int) : MValue
  | mstr (s : String) : MValue
  | mdate (ms : Int) : MValue
  | moid (hex : String) : MValue
  | marr : MValue
  | mdoc : MValue
deriving DecidableEq

/-- Embedding of `MongoIntrospector.mapType` (checks in source order:
null, array, ObjectId, Date, then capitalized `typeof`). -/
def mapType : MValue → String
  | .mnull => "String"
  | .marr => "Array"
  | .moid _ => "ObjectId"
  | .mdate _ => "Date"
  | .mbool _ => "Boolean"
  | .mnum _ => "Number"
  | .mstr _ => "String"
  | .mdoc => "Object"

/-- A field of a diagram node.  The source assigns each field a random
UUID which is never read afterwards; the model elides it. -/
structure DField where
  name : String
  ftype : String
  isPrimaryKey : Bool
  isNullable : Bool
deriving DecidableEq

/-- A diagram node as `introspect` builds it: random UUIDs are replaced
by deterministic per-index ids `"n0", "n1", ...` (the ids are fresh and
distinct, which is all the source relies on). -/
structure DiagramNode where
  id : String
  ntype : String
  posX : Int
  posY : Int
  label : String
  fields : List DField
deriving DecidableEq

/-- An inferred relationship edge (the random UUID `id` is elided; the
source never reads it). -/
structure DiagramEdge where
  source : String
  target : String
deriving DecidableEq

/-- A collection of the sampled database: its name and the single
sampled document (`findOne({})`), if the collection has one. -/
structure MCollection where
  name : String
  sample : Option (List (String × MValue))

/-- Field list of one collection node: the synthesized `_id` (primary
key, non-nullable) followed by the sampled keys other than `_id`, each
typed by `mapType` and nullable. -/
def buildFields (sample : Option (List (String × MValue))) : List DField :=
  { name := "_id", ftype := "ObjectId", isPrimaryKey := true, isNullable := false } ::
    (match sample with
     | none => []
     | some entries =>
       (entries.filter (fun e => e.1 != "_id")).map
         (fun e => { name := e.1, ftype := mapType e.2,
                     isPrimaryKey := false, isNullable := true }))

/-- Node construction with the grid-layout cursor of `introspect`:
start at (100, 100), advance x by 350 per node, and wrap (x back to
100, y advanced by 400) once x exceeds 1000. -/
def buildNodesGo : List MCollection → Nat → Int → Int → List DiagramNode
  | [], _, _, _ => []
  | c :: rest, i, x, y =>
    let node : DiagramNode :=
      { id := "n" ++ toString i, ntype := "mongoCollection",
        posX := x, posY := y, label := c.name, fields := buildFields c.sample }
    let x2 := x + 350
    if x2 > 1000 then node :: buildNodesGo rest (i + 1) 100 (y + 400)
    else node :: buildNodesGo rest (i + 1) x2 y

/-- All nodes built from the listed collections. -/
def buildNodes (cols : List MCollection) : List DiagramNode :=
  buildNodesGo cols 0 100 100

/-- Whether the character list `pat` starts the character list `l`. -/
def leadsWith : List Char → List Char → Bool
  | [], _ => true
  | _ :: _, [] => false
  | p :: ps, c :: cs => p == c && leadsWith ps cs

/-- Removal of the first occurrence of `pat` from a character list;
the list is returned unchanged when `pat` does not occur.  This is
JavaScript `String.prototype.replace(pat, '')` with a string pattern,
which replaces only the FIRST occurrence. -/
def replaceFirstChars (pat : List Char) : List Char → List Char
  | [] => []
  | c :: cs =>
    if leadsWith pat (c :: cs) then (c :: cs).drop pat.length
    else c :: replaceFirstChars pat cs

/-- JavaScript `s.replace(pat, '')` (first occurrence only). -/
def replaceFirst (s pat : String) : String :=
  String.mk (replaceFirstChars pat.data s.data)

/-- JavaScript `s.endsWith(pat)` (case-sensitive). -/
def endsWithSuffix (s pat : String) : Bool :=
  leadsWith pat.data.reverse s.data.reverse

/-- JavaScript `s.toLowerCase()` (character-wise lowercasing; exact for
the ASCII names involved here). -/
def toLowerStr (s : String) : String :=
  String.mk (s.data.map Char.toLower)

/-- The candidate base name the code computes for a reference-like
field name: `field.name.replace('Id', '').toLowerCase()` — note this
removes the FIRST occurrence of `"Id"`, not the trailing one. -/
def codeBaseName (name : String) : String :=
  toLowerStr (replaceFirst name "Id")

/-- Written to the spec's words (for comparison with `codeBaseName`):
"strip the suffix and lowercase the remainder" — the trailing `"Id"`
(two characters) is removed. -/
def specBaseName (name : String) : String :=
  toLowerStr (String.mk (name.data.take (name.data.length - 2)))

/-- The node-matching test of the inference loop: the node's label,
lowercased, equals the base name or its simple plural (`base + "s"`). -/
def labelMatches (base : String) (n : DiagramNode) : Bool :=
  toLowerStr n.label == base || toLowerStr n.label == base ++ "s"

/-- The (optional) edge one field of one node contributes: fields whose
name ends in `"Id"` and is not `"_id"` are resolved against the first
node whose label matches the computed base name. -/
def inferEdgeForField (nodes : List DiagramNode) (src : DiagramNode) (f : DField) :
    Option DiagramEdge :=
  if endsWithSuffix f.name "Id" && f.name != "_id" then
    match nodes.find? (labelMatches (codeBaseName f.name)) with
    | some t => some { source := src.id, target := t.id }
    | none => none
  else none

/-- Embedding of the relationship-inference loop of `introspect`: for
every node (in order) and every of its fields (in order), the field's
contributed edge, if any. -/
def inferEdges (nodes : List DiagramNode) : List DiagramEdge :=
  (nodes.map (fun src => src.fields.filterMap (inferEdgeForField nodes src))).flatten

/-- Failures of a document-database introspection session, by failing
step. -/
inductive MongoError where
  | connectError : MongoError
  | listCollectionsError : MongoError
  | closeError : MongoError
deriving DecidableEq

/-- The produced diagram content (`nodes`, `edges`,
`metadata.dbType = 'MONGODB'`). -/
structure MongoDiagram where
  nodes : List DiagramNode
  edges : List DiagramEdge
  dbType : String
deriving DecidableEq

/-- Oracle for one introspection session: whether `connect` succeeds,
whether the enumeration/sampling inside the `try` body succeeds, the
collections it would list, and whether `client.close()` succeeds. -/
structure MongoWorld where
  connectOk : Bool
  listOk : Bool
  collections : List MCollection
  closeOk : Bool

/-- The `try`-block body of `MongoIntrospector.introspect`: connect,
enumerate and sample collections, build nodes, infer edges. -/
def introspectBody (w : MongoWorld) : Except MongoError MongoDiagram :=
  if !w.connectOk then .error .connectError
  else if !w.listOk then .error .listCollectionsError
  else
    let nodes := buildNodes w.collections
    .ok { nodes := nodes, edges := inferEdges nodes, dbType := "MONGODB" }

/-- Result of `await client.close()`. -/
def closeResult (w : MongoWorld) : Except MongoError Unit :=
  if w.closeOk then .ok () else .error .closeError

/-- JavaScript semantics of `try { body } finally { await close() }`:
the finally block always runs, and an exception thrown by it REPLACES
whatever the body produced (result or in-flight exception). -/
def tryFinallyClose (body : Except MongoError MongoDiagram)
    (closeRes : Except MongoError Unit) : Except MongoError MongoDiagram :=
  match closeRes with
  | .ok _ => body
  | .error e => .error e

/-- Embedding of `MongoIntrospector.introspect`: the result surfaced to
the caller, paired with whether `close` was invoked (it always is — the
`finally` runs on every exit path). -/
def introspect (w : MongoWorld) : Except MongoError MongoDiagram × Bool :=
  (tryFinallyClose (introspectBody w) (closeResult w), true)




/-- The row as `prisma.project.update` rewrites it: new content,
version incremented by one. -/
def updatedRow (p : Project) (c : Json) : Project :=
  { p with content := c, version := p.version + 1 }

/-- The store after `update` has replaced project `pid`'s row `p`. -/
def updatedStore (s : Store) (pid : String) (p : Project) (c : Json) : Store :=
  { s with projects := updateRows s.projects pid (updatedRow p c) }

/-- Whether the root of the content is a (non-array) JSON object. -/
def isObjRoot : Json → Bool
  | .obj _ => true
  | _ => false

/-- Whether the named field of the content, read the JavaScript way, is
acceptable to the validator: NOT (truthy and not an array) — i.e.
absent, falsy, or an array. -/
def seqFieldOk (j : Json) (key : String) : Bool :=
  match j with
  | .obj fs =>
    !(truthy ((jsGetObj fs key).getD Json.null) &&
      !(isArr ((jsGetObj fs key).getD Json.null)))
  | _ => true

/-- Whether a key is in the validator's denylist. -/
def isBadKeyName (k : String) : Bool :=
  k == "__proto__" || k == "constructor" || k == "prototype"

mutual
/-- Whether a denylisted object key occurs anywhere in the value, at
any nesting depth (the declarative counterpart of the recursive scan). -/
def hasBadKey : Json → Bool
  | .obj fs => hasBadKeyObj fs
  | .arr xs => hasBadKeyArr xs
  | _ => false
/-- Denylisted-key occurrence inside an array's elements. -/
def hasBadKeyArr : JsonArr → Bool
  | .nil => false
  | .cons x tl => hasBadKey x || hasBadKeyArr tl
/-- Denylisted-key occurrence among an object's entries: the key
itself, inside the value, or further along. -/
def hasBadKeyObj : JsonObj → Bool
  | .nil => false
  | .cons k v tl => isBadKeyName k || hasBadKey v || hasBadKeyObj tl
end

/-- Sequential execution of a list of `saveDiagram` calls (content,
time, generated snapshot id), each with no `expectedVersion` and
`forceSnapshot = false`, threading the store. -/
def runSaves (s : Store) (pid uid : String) : List (Json × Nat × String) → Store
  | [] => s
  | (c, t, sid) :: rest =>
    runSaves (saveDiagram s pid c uid none false t sid).1 pid uid rest

/-- Every call of the sequence returned `.ok`. -/
def runSavesOk (s : Store) (pid uid : String) : List (Json × Nat × String) → Prop
  | [] => True
  | (c, t, sid) :: rest =>
    (∃ p, (saveDiagram s pid c uid none false t sid).2 = .ok p) ∧
    runSavesOk (saveDiagram s pid c uid none false t sid).1 pid uid rest

/-- Hypotheses of the N-save scenario, relative to the previous state's
content and the time of the latest existing snapshot (if any): each
content validates, is non-null, has a fingerprint differing from the
state it overwrites, and arrives more than the throttling window after
the preceding snapshot. -/
def ChainOk : Option Nat → Json → List (Json × Nat × String) → Prop
  | _, _, [] => True
  | lastT, prevC, (c, t, _) :: rest =>
    validateDiagram c = .ok true ∧
    c ≠ Json.null ∧
    createHash c ≠ createHash prevC ∧
    (∀ t0, lastT = some t0 → t0 + FIVE_MINUTES < t) ∧
    ChainOk (some t) c rest

/-- Bookkeeping invariant tying the snapshot table to the time of the
most recent snapshot of the project: either there is none, or the
`findFirst` query returns one created at `t0` and every snapshot of the
project is at most that old. -/
def SnapBound (s : Store) (pid : String) : Option Nat → Prop
  | none => s.snapshots.filter (fun v => v.projectId == pid) = []
  | some t0 =>
    (∃ x, lastVersionQuery s pid = some x ∧ x.createdAt = t0) ∧
    (∀ x ∈ s.snapshots, (x.projectId == pid) = true → x.createdAt ≤ t0)

/-- The content stored after the whole call sequence (the last call's
content, or the initial content for an empty sequence). -/
def lastContent (q : Json) : List (Json × Nat × String) → Json
  | [] => q
  | (c, _, _) :: rest => lastContent c rest

/-- The snapshot rows the call sequence is expected to append: the k-th
holds the state BEFORE the k-th call. -/
def expectedSnaps (pid : String) (q : Json) : List (Json × Nat × String) → List Snapshot
  | [] => []
  | (c, t, sid) :: rest =>
    { id := sid, projectId := pid, content := q,
      description := "Auto-save (Smart)", createdAt := t } :: expectedSnaps pid c rest

/-- Concrete project used by witness and counterexample instances. -/
def pW : Project :=
  { id := "p1", userId := "u1", teamId := none, content := Json.obj .nil, version := 0 }

/-- Concrete store holding only `pW`, with no snapshots. -/
def storeW : Store := { projects := [pW], snapshots := [] }

/-- Concrete valid content distinct from `pW`'s. -/
def contentA : Json := Json.obj (.cons "a" (Json.num 1) .nil)

/-- A second concrete valid content, distinct from `contentA`. -/
def contentB : Json := Json.obj (.cons "b" (Json.num 2) .nil)

/-- Concrete snapshot of `pW`'s project, for restore instances. -/
def snapW : Snapshot :=
  { id := "v1", projectId := "p1", content := contentA,
    description := "Auto-save (Smart)", createdAt := 100 }

/-- Concrete snapshot belonging to a DIFFERENT project. -/
def snapOther : Snapshot :=
  { id := "v2", projectId := "q9", content := contentA,
    description := "Auto-save (Smart)", createdAt := 100 }

/-- Concrete store with `pW` and two snapshots (one of another
project). -/
def storeW4 : Store := { projects := [pW], snapshots := [snapW, snapOther] }

/-- Concrete call sequence for the two-save witness (fingerprints
differ pairwise and from `pW`'s content; more than five minutes apart). -/
def callsW : List (Json × Nat × String) :=
  [(contentA, 400000, "s1"), (contentB, 800000, "s2")]

/-- Failing world for C8: the connection opens, introspection fails
mid-session, and `close` also fails. -/
def worldC8 : MongoWorld :=
  { connectOk := true, listOk := false, collections := [], closeOk := false }

/-- Collections refuting the suffix-strip reading of relationship
inference: a `posts` collection with a field `IdeaId` and a collection
labelled `idea`.  Stripping the SUFFIX would give base `idea` and an
edge; the code removes the FIRST occurrence of `Id`, giving base
`eaid`, which matches nothing. -/
def colsC7 : List MCollection :=
  [{ name := "posts", sample := some [("IdeaId", .moid "aa")] },
   { name := "idea", sample := none }]

/-- Collections for the C7 witness: `orders.userId` resolving to the
`users` collection. -/
def colsUsers : List MCollection :=
  [{ name := "orders", sample := some [("userId", .moid "cc")] },
   { name := "users", sample := none }]

/-- Collections refuting the unconditional self-edge reading: the
owning collection `users` matches its own field `userId`'s base name,
but the EARLIER collection `user` also matches and `find` returns the
first match, so the emitted edge is not a self-edge. -/
def colsC10 : List MCollection :=
  [{ name := "user", sample := none },
   { name := "users", sample := some [("userId", .moid "bb")] }]

/-- Collections for the C10 witness: a lone `users` collection whose
`userId` field matches the collection itself, yielding a self-edge. -/
def colsSelf : List MCollection :=
  [{ name := "users", sample := some [("userId", .moid "dd")] }]

theorem updateProject_snapshots (s : Store) (pid : String) (c : Json) :
    (updateProject s pid c).1.snapshots = s.snapshots := by
  unfold updateProject
  cases h : findRow s.projects pid <;> simp

theorem findRow_updateRows (l : List Project) (pid : String) (p p2 : Project)
    (hf : findRow l pid = some p) (hid : p2.id = p.id) :
    findRow (updateRows l pid p2) pid = some p2 := by
  induction l with
  | nil => simp [findRow] at hf
  | cons q tl ih =>
    by_cases hq : (q.id == pid) = true
    · rw [findRow, if_pos hq] at hf
      injection hf with hf
      have hp2 : (p2.id == pid) = true := by rw [hid, ← hf]; exact hq
      rw [updateRows, if_pos hq, findRow, if_pos hp2]
    · rw [Bool.not_eq_true] at hq
      simp only [findRow, hq] at hf
      simp only [updateRows, hq]
      simpa [findRow, hq] using ih hf

theorem updateProject_eq (s : Store) (pid : String) (c : Json) (p : Project)
    (h : findUnique s pid = some p) :
    updateProject s pid c = (updatedStore s pid p c, some (updatedRow p c)) := by
  unfold updateProject updatedStore updatedRow
  unfold findUnique at h
  rw [h]

theorem findUnique_updatedStore (s : Store) (pid : String) (c : Json) (p : Project)
    (h : findUnique s pid = some p) :
    findUnique (updatedStore s pid p c) pid = some (updatedRow p c) := by
  unfold findUnique at h ⊢
  unfold updatedStore
  exact findRow_updateRows s.projects pid p _ h rfl

/-- CLAIM C2.  For every project and every supplied `expectedVersion`
differing from the stored `version`, `saveDiagram` (with content that
passes validation, i.e. that reaches the optimistic-locking gate) fails
with `Conflict` and returns the store exactly as it was: content,
version and snapshot history are untouched — in particular no
`VersionSnapshot` is created before the check fires. -/
theorem saveDiagram_stale_expectedVersion_conflict
    (s : Store) (pid : String) (c : Json) (uid : String) (v : Nat) (fsnap : Bool)
    (now : Nat) (sid : String) (p : Project)
    (hval : validateDiagram c = .ok true)
    (hfind : findUnique s pid = some p)
    (hv : v ≠ p.version) :
    saveDiagram s pid c uid (some v) fsnap now sid =
      (s, .error (.conflict "Project has been modified by another user. Reload required.")) := by
  unfold saveDiagram saveDiagramRead
  rw [hval, hfind]
  simp [Ne.symm hv]

/-- Witness for C2 at a concrete input: stored version 0, supplied
`expectedVersion` 1; the store is returned untouched with `Conflict`. -/
theorem saveDiagram_stale_expectedVersion_conflict_witness :
    saveDiagram storeW "p1" contentA "u1" (some 1) false 0 "s1" =
      (storeW, .error (.conflict "Project has been modified by another user. Reload required.")) :=
  saveDiagram_stale_expectedVersion_conflict storeW "p1" contentA "u1" 1 false 0 "s1" pW
    rfl rfl (by decide)

/-- CLAIM C1.  The read of the current version and the write of
content/version do NOT execute as an atomic unit: under the admissible
interleaving in which both callers perform their non-transactional
`findUnique` read (both observing version 0, which both pass as
`expectedVersion`) before either writes, BOTH calls succeed — neither
observes `Conflict` — the version advances twice from the same base,
and the second write silently overwrites the first caller's content (a
lost update).  This refutes the claimed atomicity on the code as
written; the spec states the atomicity as a requirement (its design
notes flag exactly this non-transactional save path), so the code, not
the claim, is at fault. -/
theorem racedSaves_both_succeed_lost_update :
    racedSaves storeW "p1" contentA contentB "u1" "u2" (some 0) 1000 1000 "s1" "s2" =
      ({ projects := [{ pW with content := contentB, version := 2 }],
         snapshots := [{ id := "s1", projectId := "p1", content := Json.obj .nil,
                         description := "Auto-save (Smart)", createdAt := 1000 }] },
       .ok { pW with content := contentA, version := 1 },
       .ok { pW with content := contentB, version := 2 }) ∧
    serialize contentA ≠ serialize contentB :=
  ⟨rfl, by decide⟩

/-- CLAIM C8.  The connection is indeed closed on every exit path (the
`finally` always runs), but a failing `close` MASKS the original
introspection error: in `worldC8` the body fails with
`listCollectionsError`, yet the caller observes `closeError`, because a
JavaScript `finally` block that throws replaces the in-flight
exception.  The spec requires the original failure to take priority, so
the code, not the claim, is at fault. -/
theorem introspect_close_error_masks_introspection_error :
    introspectBody worldC8 = .error .listCollectionsError ∧
    (introspect worldC8).1 = .error .closeError ∧
    (introspect worldC8).2 = true ∧
    MongoError.closeError ≠ MongoError.listCollectionsError :=
  ⟨rfl, rfl, rfl, by decide⟩

theorem updatedStore_snapshots (s : Store) (pid : String) (p : Project) (c : Json) :
    (updatedStore s pid p c).snapshots = s.snapshots := rfl

theorem snapshotPhase_hash_eq (s : Store) (pid : String) (c : Json) (cur : Project)
    (now : Nat) (sid : String)
    (hh : createHash cur.content = createHash c) :
    snapshotPhase s pid c cur false now sid = s := by
  unfold snapshotPhase
  rw [hh]
  simp

theorem snapshotPhase_forced (s : Store) (pid : String) (c : Json) (cur : Project)
    (now : Nat) (sid : String) :
    snapshotPhase s pid c cur true now sid =
      { s with snapshots := s.snapshots ++ [backupSnap pid cur.content true now sid] } := by
  unfold snapshotPhase
  simp

theorem saveDiagramWrite_hash_eq (s : Store) (pid : String) (c : Json) (cur : Project)
    (now : Nat) (sid : String)
    (hh : createHash cur.content = createHash c) :
    saveDiagramWrite s pid c cur false now sid =
      (match updateProject s pid c with
       | (s2, some p) => (s2, .ok p)
       | (s2, none) => (s2, .error (.notFound "Project" pid))) := by
  unfold saveDiagramWrite
  rw [snapshotPhase_hash_eq s pid c cur now sid hh]

/-- CLAIM C9.  A no-op save — valid content whose fingerprint equals
the stored content's fingerprint, `forceSnapshot = false`, and
`expectedVersion` matching or omitted — still performs the final
update: the stored content is overwritten and `version` is incremented
by exactly 1 (and, fingerprints being equal, no snapshot is created
either). -/
theorem saveDiagram_noop_still_increments_version
    (s : Store) (pid : String) (c : Json) (uid : String) (ev : Option Nat)
    (now : Nat) (sid : String) (p : Project)
    (hfind : findUnique s pid = some p)
    (hval : validateDiagram c = .ok true)
    (hh : createHash c = createHash p.content)
    (hev : ev = none ∨ ev = some p.version) :
    saveDiagram s pid c uid ev false now sid =
      (updatedStore s pid p c, .ok (updatedRow p c)) ∧
    findUnique (updatedStore s pid p c) pid = some (updatedRow p c) ∧
    (updatedStore s pid p c).snapshots = s.snapshots ∧
    (updatedRow p c).version = p.version + 1 ∧
    (updatedRow p c).content = c := by
  have hmain : saveDiagram s pid c uid ev false now sid =
      (updatedStore s pid p c, .ok (updatedRow p c)) := by
    unfold saveDiagram saveDiagramRead
    rw [hval, hfind]
    have hwrite : saveDiagramWrite s pid c p false now sid =
        (updatedStore s pid p c, .ok (updatedRow p c)) := by
      rw [saveDiagramWrite_hash_eq s pid c p now sid hh.symm,
        updateProject_eq s pid c p hfind]
    rcases hev with hev | hev
    · rw [hev]
      exact hwrite
    · rw [hev]
      simpa using hwrite
  exact ⟨hmain, findUnique_updatedStore s pid c p hfind, rfl, rfl, rfl⟩

/-- Witness for C9 at a concrete input: saving `pW`'s own content again
(matching `expectedVersion` 0) increments the version to 1 and leaves
the snapshot table empty. -/
theorem saveDiagram_noop_still_increments_version_witness :
    saveDiagram storeW "p1" (Json.obj .nil) "u1" (some 0) false 0 "s1" =
      (updatedStore storeW "p1" pW (Json.obj .nil), .ok (updatedRow pW (Json.obj .nil))) ∧
    findUnique (updatedStore storeW "p1" pW (Json.obj .nil)) "p1" =
      some (updatedRow pW (Json.obj .nil)) ∧
    (updatedStore storeW "p1" pW (Json.obj .nil)).snapshots = storeW.snapshots ∧
    (updatedRow pW (Json.obj .nil)).version = pW.version + 1 ∧
    (updatedRow pW (Json.obj .nil)).content = Json.obj .nil :=
  saveDiagram_noop_still_increments_version storeW "p1" (Json.obj .nil) "u1" (some 0)
    0 "s1" pW rfl rfl rfl (Or.inr rfl)

theorem updateProject_ok_inv (s : Store) (pid : String) (c : Json)
    (s2 : Store) (p2 : Project)
    (h : updateProject s pid c = (s2, some p2)) :
    findUnique s2 pid = some p2 ∧ p2.content = c := by
  unfold updateProject at h
  cases hrow : findRow s.projects pid with
  | none => rw [hrow] at h; simp at h
  | some p =>
    rw [hrow] at h
    simp only [Prod.mk.injEq, Option.some.injEq] at h
    obtain ⟨h1, h2⟩ := h
    subst h1
    subst h2
    exact ⟨findRow_updateRows s.projects pid p _ hrow rfl, rfl⟩

theorem saveDiagramWrite_ok_inv (s : Store) (pid : String) (c : Json) (cur : Project)
    (fsnap : Bool) (now : Nat) (sid : String) (s1 : Store) (p1 : Project)
    (h : saveDiagramWrite s pid c cur fsnap now sid = (s1, .ok p1)) :
    findUnique s1 pid = some p1 ∧ p1.content = c := by
  unfold saveDiagramWrite at h
  cases hupd : updateProject (snapshotPhase s pid c cur fsnap now sid) pid c with
  | mk s2 po =>
    rw [hupd] at h
    cases po with
    | none => simp at h
    | some p =>
      simp only [Prod.mk.injEq, Except.ok.injEq] at h
      obtain ⟨h1, h2⟩ := h
      subst h1
      subst h2
      exact updateProject_ok_inv _ pid c _ p hupd

theorem saveDiagram_ok_inv (s : Store) (pid : String) (c : Json) (uid : String)
    (ev : Option Nat) (fsnap : Bool) (now : Nat) (sid : String) (s1 : Store) (p1 : Project)
    (h : saveDiagram s pid c uid ev fsnap now sid = (s1, .ok p1)) :
    (∃ b, validateDiagram c = .ok b) ∧ findUnique s1 pid = some p1 ∧ p1.content = c := by
  unfold saveDiagram at h
  cases hread : saveDiagramRead s pid c ev with
  | halt e => rw [hread] at h; simp at h
  | proceed cur =>
    rw [hread] at h
    refine ⟨?_, ?_⟩
    · cases hv : validateDiagram c with
      | error e =>
        unfold saveDiagramRead at hread
        rw [hv] at hread
        simp at hread
      | ok b => exact ⟨b, rfl⟩
    · exact saveDiagramWrite_ok_inv s pid c cur fsnap now sid s1 p1 h

/-- CLAIM C5.  Fingerprint equality implies no snapshot: after any
successful `saveDiagram` of content `c`, a second `saveDiagram` of the
same content (same fingerprint as the now-stored content) with
`forceSnapshot = false` leaves the snapshot table untouched, whatever
its `expectedVersion` and whoever the caller. -/
theorem saveDiagram_fingerprint_equal_no_snapshot
    (s : Store) (pid : String) (c : Json) (uid uid2 : String) (ev ev2 : Option Nat)
    (fsnap : Bool) (now now2 : Nat) (sid sid2 : String) (s1 : Store) (p1 : Project)
    (h : saveDiagram s pid c uid ev fsnap now sid = (s1, .ok p1)) :
    (saveDiagram s1 pid c uid2 ev2 false now2 sid2).1.snapshots = s1.snapshots := by
  obtain ⟨⟨b, hval⟩, hfind, hcnt⟩ := saveDiagram_ok_inv s pid c uid ev fsnap now sid s1 p1 h
  have hw : (saveDiagramWrite s1 pid c p1 false now2 sid2).1.snapshots = s1.snapshots := by
    unfold saveDiagramWrite
    rw [snapshotPhase_hash_eq s1 pid c p1 now2 sid2 (by rw [hcnt])]
    cases hupd : updateProject s1 pid c with
    | mk s2 po =>
      have hsnap : s2.snapshots = s1.snapshots := by
        have h2 := updateProject_snapshots s1 pid c
        rw [hupd] at h2
        exact h2
      cases po <;> simpa using hsnap
  unfold saveDiagram saveDiagramRead
  rw [hval, hfind]
  cases ev2 with
  | none => simpa using hw
  | some v =>
    by_cases hv : p1.version ≠ v
    · simp [hv]
    · simpa [hv] using hw

/-- Witness for C5 at a concrete input: saving `contentA` twice in a
row on `storeW`; the second call adds no snapshot. -/
theorem saveDiagram_fingerprint_equal_no_snapshot_witness :
    (saveDiagram (saveDiagram storeW "p1" contentA "u1" none false 0 "s1").1
        "p1" contentA "u1" none false 1000 "s2").1.snapshots =
      (saveDiagram storeW "p1" contentA "u1" none false 0 "s1").1.snapshots :=
  saveDiagram_fingerprint_equal_no_snapshot storeW "p1" contentA "u1" "u1" none none
    false 0 1000 "s1" "s2" (saveDiagram storeW "p1" contentA "u1" none false 0 "s1").1
    { pW with content := contentA, version := 1 } rfl

theorem coalesce_of_ne_null (q : Json) (h : q ≠ Json.null) : coalesce q = q := by
  cases q with
  | null => exact absurd rfl h
  | bool b => rfl
  | num n => rfl
  | str s => rfl
  | arr xs => rfl
  | obj fs => rfl

theorem saveDiagramRead_proceed (s : Store) (pid : String) (c : Json) (ev : Option Nat)
    (p : Project)
    (hval : validateDiagram c = .ok true)
    (hfind : findUnique s pid = some p)
    (hev : ev = none ∨ ev = some p.version) :
    saveDiagramRead s pid c ev = .proceed p := by
  unfold saveDiagramRead
  rw [hval, hfind]
  rcases hev with hev | hev <;> subst hev <;> simp

theorem saveDiagram_forced_eq (s : Store) (pid : String) (c : Json) (uid : String)
    (now : Nat) (sid : String) (p : Project)
    (hval : validateDiagram c = .ok true)
    (hfind : findUnique s pid = some p) :
    saveDiagram s pid c uid none true now sid =
      (updatedStore
        { s with snapshots := s.snapshots ++ [backupSnap pid p.content true now sid] }
        pid p c,
       .ok (updatedRow p c)) := by
  have hw : saveDiagramWrite s pid c p true now sid =
      (updatedStore
        { s with snapshots := s.snapshots ++ [backupSnap pid p.content true now sid] }
        pid p c,
       .ok (updatedRow p c)) := by
    unfold saveDiagramWrite
    rw [snapshotPhase_forced]
    rw [updateProject_eq
      { s with snapshots := s.snapshots ++ [backupSnap pid p.content true now sid] }
      pid c p hfind]
  unfold saveDiagram
  rw [saveDiagramRead_proceed s pid c none p hval hfind (Or.inl rfl)]
  exact hw

/-- CLAIM C4.  `restoreVersion` fails `NotFound` when the snapshot does
not exist; fails `BadRequest` when the snapshot belongs to a different
project (both without touching the store); otherwise it delegates to
`saveDiagram` with the snapshot's content, no `expectedVersion`, and
`forceSnapshot = true`, after which the project's content equals the
restored snapshot's content, the version advanced by one, and exactly
one new snapshot exists, holding the pre-restore state with the forced
description. -/
theorem restoreVersion_spec :
    (∀ (s : Store) (pid vid uid : String) (now : Nat) (sid : String),
      s.snapshots.find? (fun v => v.id == vid) = none →
      restoreVersion s pid vid uid now sid = (s, .error (.notFound "Version" vid))) ∧
    (∀ (s : Store) (pid vid uid : String) (now : Nat) (sid : String) (ver : Snapshot),
      s.snapshots.find? (fun v => v.id == vid) = some ver →
      ver.projectId ≠ pid →
      restoreVersion s pid vid uid now sid =
        (s, .error (.badRequest "Version does not belong to this project"))) ∧
    (∀ (s : Store) (pid vid uid : String) (now : Nat) (sid : String)
        (ver : Snapshot) (p : Project),
      s.snapshots.find? (fun v => v.id == vid) = some ver →
      ver.projectId = pid →
      validateDiagram ver.content = .ok true →
      findUnique s pid = some p →
      p.content ≠ Json.null →
      restoreVersion s pid vid uid now sid =
        (updatedStore
          { s with snapshots := s.snapshots ++
              [{ id := sid, projectId := pid, content := p.content,
                 description := "Backup before Restore", createdAt := now }] }
          pid p ver.content,
         .ok (updatedRow p ver.content)) ∧
      (updatedRow p ver.content).content = ver.content ∧
      (updatedRow p ver.content).version = p.version + 1 ∧
      (restoreVersion s pid vid uid now sid).1.snapshots =
        s.snapshots ++
          [{ id := sid, projectId := pid, content := p.content,
             description := "Backup before Restore", createdAt := now }] ∧
      findUnique (restoreVersion s pid vid uid now sid).1 pid =
        some (updatedRow p ver.content)) := by
  refine ⟨?_, ?_, ?_⟩
  · intro s pid vid uid now sid hnone
    unfold restoreVersion
    rw [hnone]
  · intro s pid vid uid now sid ver hsome hne
    unfold restoreVersion
    rw [hsome]
    simp [hne]
  · intro s pid vid uid now sid ver p hsome hpid hval hfind hnn
    have hsnapeq : backupSnap pid p.content true now sid =
        { id := sid, projectId := pid, content := p.content,
          description := "Backup before Restore", createdAt := now } := by
      unfold backupSnap
      rw [coalesce_of_ne_null p.content hnn]
      rfl
    have hbody : restoreVersion s pid vid uid now sid =
        saveDiagram s pid ver.content uid none true now sid := by
      unfold restoreVersion
      rw [hsome]
      simp [hpid]
    have hmain : restoreVersion s pid vid uid now sid =
        (updatedStore
          { s with snapshots := s.snapshots ++
              [{ id := sid, projectId := pid, content := p.content,
                 description := "Backup before Restore", createdAt := now }] }
          pid p ver.content,
         .ok (updatedRow p ver.content)) := by
      rw [hbody, saveDiagram_forced_eq s pid ver.content uid now sid p hval hfind, hsnapeq]
    refine ⟨hmain, rfl, rfl, ?_, ?_⟩
    · rw [hmain]
      rfl
    · rw [hmain]
      exact findUnique_updatedStore _ pid ver.content p hfind

/-- Witness for C4 at concrete inputs: a missing snapshot id, a
snapshot of another project, and a successful restore of `snapW` on
`storeW4`. -/
theorem restoreVersion_spec_witness :
    restoreVersion storeW4 "p1" "nope" "u1" 900000 "s9" =
      (storeW4, .error (.notFound "Version" "nope")) ∧
    restoreVersion storeW4 "p1" "v2" "u1" 900000 "s9" =
      (storeW4, .error (.badRequest "Version does not belong to this project")) ∧
    restoreVersion storeW4 "p1" "v1" "u1" 900000 "s9" =
      (updatedStore
        { storeW4 with snapshots := storeW4.snapshots ++
            [{ id := "s9", projectId := "p1", content := pW.content,
               description := "Backup before Restore", createdAt := 900000 }] }
        "p1" pW snapW.content,
       .ok (updatedRow pW snapW.content)) :=
  ⟨restoreVersion_spec.1 storeW4 "p1" "nope" "u1" 900000 "s9" rfl,
   restoreVersion_spec.2.1 storeW4 "p1" "v2" "u1" 900000 "s9" snapOther rfl (by decide),
   (restoreVersion_spec.2.2 storeW4 "p1" "v1" "u1" 900000 "s9" snapW pW rfl rfl rfl rfl
     (fun h => Json.noConfusion h)).1⟩

mutual
theorem scanJson_ok_iff : (j : Json) →
    (scanForMaliciousKeys j = Except.ok () ↔ hasBadKey j = false)
  | .null => by simp [scanForMaliciousKeys, hasBadKey]
  | .bool b => by simp [scanForMaliciousKeys, hasBadKey]
  | .num n => by simp [scanForMaliciousKeys, hasBadKey]
  | .str s => by simp [scanForMaliciousKeys, hasBadKey]
  | .arr xs => by
    have h := scanArrElems_ok_iff xs
    simpa [scanForMaliciousKeys, hasBadKey] using h
  | .obj fs => by
    have h := scanObjEntries_ok_iff fs
    simpa [scanForMaliciousKeys, hasBadKey] using h
theorem scanArrElems_ok_iff : (xs : JsonArr) →
    (scanArrElems xs = Except.ok () ↔ hasBadKeyArr xs = false)
  | .nil => by simp [scanArrElems, hasBadKeyArr]
  | .cons x tl => by
    have h1 := scanJson_ok_iff x
    have h2 := scanArrElems_ok_iff tl
    cases hx : scanForMaliciousKeys x with
    | error e =>
      rw [hx] at h1
      have hbx : hasBadKey x = true := by
        cases hbk : hasBadKey x with
        | true => rfl
        | false => exact absurd (h1.mpr hbk) (by simp)
      simp [scanArrElems, hx, hasBadKeyArr, hbx]
    | ok u =>
      rw [hx] at h1
      have hbx : hasBadKey x = false := h1.mp rfl
      simp [scanArrElems, hx, hasBadKeyArr, hbx, h2]
theorem scanObjEntries_ok_iff : (fs : JsonObj) →
    (scanObjEntries fs = Except.ok () ↔ hasBadKeyObj fs = false)
  | .nil => by simp [scanObjEntries, hasBadKeyObj]
  | .cons k v tl => by
    have h1 := scanJson_ok_iff v
    have h2 := scanObjEntries_ok_iff tl
    by_cases hk : k = "__proto__" ∨ k = "constructor" ∨ k = "prototype"
    · have hbad : isBadKeyName k = true := by
        rcases hk with h | h | h <;> simp [isBadKeyName, h]
      simp [scanObjEntries, hk, hasBadKeyObj, hbad]
    · obtain ⟨hka, hkr⟩ := not_or.mp hk
      obtain ⟨hkb, hkc⟩ := not_or.mp hkr
      have hgood : isBadKeyName k = false := by
        simp [isBadKeyName, hka, hkb, hkc]
      cases hx : scanForMaliciousKeys v with
      | error e =>
        rw [hx] at h1
        have hbx : hasBadKey v = true := by
          cases hbk : hasBadKey v with
          | true => rfl
          | false => exact absurd (h1.mpr hbk) (by simp)
        simp [scanObjEntries, hk, hx, hasBadKeyObj, hgood, hbx]
      | ok u =>
        rw [hx] at h1
        have hbx : hasBadKey v = false := h1.mp rfl
        simp [scanObjEntries, hk, hx, hasBadKeyObj, hgood, hbx, h2]
end

/-- CLAIM C6 (amended).  `validateDiagram` accepts falsy content
outright (null, false, 0, the empty string) without any check;
otherwise it accepts exactly when the serialized size is within the
5 MiB ceiling, the root is a non-array object, each of `nodes`/`edges`
is absent, falsy, or an array (a truthy non-array value is rejected,
but a falsy non-array value such as `0` passes), and no object key
anywhere in the nested content equals `__proto__`, `constructor` or
`prototype`; every violating content is rejected with a
`ValidationError`. -/
theorem validateDiagram_characterization (j : Json) :
    validateDiagram j = .ok true ↔
      (truthy j = false ∨
        ((serialize j).length ≤ 5 * 1024 * 1024 ∧ isObjRoot j = true ∧
         seqFieldOk j "nodes" = true ∧ seqFieldOk j "edges" = true ∧
         hasBadKey j = false)) := by
  unfold validateDiagram
  by_cases ht : truthy j = false
  · simp [ht]
  · rw [if_neg ht]
    by_cases hs : (serialize j).length > 5 * 1024 * 1024
    · rw [if_pos hs]
      simp [ht, Nat.not_le.mpr hs]
    · rw [if_neg hs]
      have hle : (serialize j).length ≤ 5 * 1024 * 1024 := Nat.not_lt.mp hs
      cases j with
      | null => simp [truthy] at ht
      | bool b => simp [ht, isObjRoot]
      | num n => simp [ht, isObjRoot]
      | str s => simp [ht, isObjRoot]
      | arr xs => simp [ht, isObjRoot]
      | obj fs =>
        by_cases hn : (truthy ((jsGetObj fs "nodes").getD Json.null) &&
            !(isArr ((jsGetObj fs "nodes").getD Json.null))) = true
        · have hseq : seqFieldOk (Json.obj fs) "nodes" = false := by
            simp [seqFieldOk, hn]
          simp only [hn, if_true]
          simp [ht, hseq]
        · rw [Bool.not_eq_true] at hn
          simp only [hn, Bool.false_eq_true, if_false]
          by_cases he : (truthy ((jsGetObj fs "edges").getD Json.null) &&
              !(isArr ((jsGetObj fs "edges").getD Json.null))) = true
          · have hseq : seqFieldOk (Json.obj fs) "edges" = false := by
              simp [seqFieldOk, he]
            simp only [he, if_true]
            simp [ht, hseq]
          · rw [Bool.not_eq_true] at he
            simp only [he, Bool.false_eq_true, if_false]
            have hscan := scanJson_ok_iff (Json.obj fs)
            cases hx : scanForMaliciousKeys (Json.obj fs) with
            | error e =>
              rw [hx] at hscan
              have hbad : hasBadKey (Json.obj fs) = true := by
                cases hbk : hasBadKey (Json.obj fs) with
                | true => rfl
                | false => exact absurd (hscan.mpr hbk) (by simp)
              simp [ht, hbad, hx]
            | ok u =>
              rw [hx] at hscan
              have hgood : hasBadKey (Json.obj fs) = false := hscan.mp rfl
              simp [ht, hle, isObjRoot, seqFieldOk, hn, he, hgood, hx]

/-- CLAIM C6 counterexample.  The claim, as stated, requires rejection
of any content whose root is not an object and of any present
non-sequence `nodes` field.  The code accepts both of these: the falsy
root `0` is accepted by the early empty-content return, and a `nodes`
field holding the falsy non-array `0` passes the truthiness-guarded
structure check. -/
theorem validateDiagram_falsy_root_accepted :
    validateDiagram (Json.num 0) = Except.ok true ∧
    isObjRoot (Json.num 0) = false ∧
    validateDiagram (Json.obj (.cons "nodes" (Json.num 0) .nil)) = Except.ok true ∧
    isArr (Json.num 0) = false :=
  ⟨rfl, rfl, rfl, rfl⟩

theorem edge_mem_inferEdges (nodes : List DiagramNode) (src : DiagramNode) (f : DField)
    (e : DiagramEdge)
    (hsrc : src ∈ nodes) (hf : f ∈ src.fields)
    (he : inferEdgeForField nodes src f = some e) :
    e ∈ inferEdges nodes := by
  unfold inferEdges
  rw [List.mem_flatten]
  refine ⟨src.fields.filterMap (inferEdgeForField nodes src), ?_, ?_⟩
  · exact List.mem_map.mpr ⟨src, hsrc, rfl⟩
  · exact List.mem_filterMap.mpr ⟨f, hf, he⟩

/-- CLAIM C7 (amended).  For every field whose name ends in `Id` and is
not `_id`, the code removes the FIRST occurrence of `"Id"` from the
name (for names in which `Id` occurs only as the suffix this coincides
with stripping the suffix) and lowercases the remainder to form the
base name; if some node's label (lowercased) matches the base exactly
or its simple plural `base + "s"`, an edge is emitted from the field's
owning node to the first such node, and if no node matches, no edge is
emitted for that field. -/
theorem inferEdges_firstOccurrence_basename
    (nodes : List DiagramNode) (src : DiagramNode) (f : DField)
    (hsrc : src ∈ nodes) (hf : f ∈ src.fields)
    (hend : endsWithSuffix f.name "Id" = true) (hid : f.name ≠ "_id") :
    (∀ t, nodes.find? (labelMatches (codeBaseName f.name)) = some t →
      ({ source := src.id, target := t.id } : DiagramEdge) ∈ inferEdges nodes) ∧
    (nodes.find? (labelMatches (codeBaseName f.name)) = none →
      inferEdgeForField nodes src f = none) := by
  have hcond : (endsWithSuffix f.name "Id" && f.name != "_id") = true := by
    simp [hend, hid]
  constructor
  · intro t hfound
    apply edge_mem_inferEdges nodes src f _ hsrc hf
    unfold inferEdgeForField
    rw [if_pos hcond, hfound]
  · intro hnone
    unfold inferEdgeForField
    rw [if_pos hcond, hnone]

/-- Witness for C7 at a concrete input: `orders.userId` with a `users`
collection present resolves to an edge from the `orders` node to the
`users` node. -/
theorem inferEdges_firstOccurrence_basename_witness :
    ({ source := "n0", target := "n1" } : DiagramEdge) ∈ inferEdges (buildNodes colsUsers) :=
  (inferEdges_firstOccurrence_basename (buildNodes colsUsers)
    { id := "n0", ntype := "mongoCollection", posX := 100, posY := 100,
      label := "orders",
      fields := [{ name := "_id", ftype := "ObjectId", isPrimaryKey := true, isNullable := false },
                 { name := "userId", ftype := "ObjectId", isPrimaryKey := false, isNullable := true }] }
    { name := "userId", ftype := "ObjectId", isPrimaryKey := false, isNullable := true }
    (by decide) (by decide) (by decide) (by decide)).1
    { id := "n1", ntype := "mongoCollection", posX := 450, posY := 100,
      label := "users",
      fields := [{ name := "_id", ftype := "ObjectId", isPrimaryKey := true, isNullable := false }] }
    (by decide)

/-- CLAIM C7 counterexample.  The claim reads the base name as "the
suffix is stripped and the remainder lowercased": for the field
`IdeaId` that gives `idea`, and a node labelled `idea` exists in
`buildNodes colsC7`, so the claim predicts an edge.  The code instead
removes the FIRST occurrence (`IdeaId` → `eaId` → `eaid`), matches
nothing, and emits NO edge. -/
theorem inferEdges_suffix_strip_refuted :
    specBaseName "IdeaId" = "idea" ∧
    codeBaseName "IdeaId" = "eaid" ∧
    endsWithSuffix "IdeaId" "Id" = true ∧
    ("IdeaId" : String) ≠ "_id" ∧
    (buildNodes colsC7).map DiagramNode.label = ["posts", "idea"] ∧
    (∃ src ∈ buildNodes colsC7, ∃ f ∈ src.fields, f.name = "IdeaId") ∧
    inferEdges (buildNodes colsC7) = [] := by
  refine ⟨rfl, rfl, rfl, by decide, rfl, ?_, rfl⟩
  decide

/-- CLAIM C10 (amended).  The owning node is never excluded from the
candidate search: whenever the owning node is the FIRST node in the
node list whose label matches its own field's base name or plural, the
emitted edge is a self-edge (source and target the same node).  (When
an earlier node also matches, `find` returns that one instead — see the
counterexample.) -/
theorem inferEdges_self_edge_when_first_match
    (nodes : List DiagramNode) (src : DiagramNode) (f : DField)
    (hsrc : src ∈ nodes) (hf : f ∈ src.fields)
    (hend : endsWithSuffix f.name "Id" = true) (hid : f.name ≠ "_id")
    (hfound : nodes.find? (labelMatches (codeBaseName f.name)) = some src) :
    ({ source := src.id, target := src.id } : DiagramEdge) ∈ inferEdges nodes := by
  have hcond : (endsWithSuffix f.name "Id" && f.name != "_id") = true := by
    simp [hend, hid]
  apply edge_mem_inferEdges nodes src f _ hsrc hf
  unfold inferEdgeForField
  rw [if_pos hcond, hfound]

/-- Witness for C10 at a concrete input: a lone `users` collection with
a `userId` field yields the self-edge. -/
theorem inferEdges_self_edge_when_first_match_witness :
    ({ source := "n0", target := "n0" } : DiagramEdge) ∈ inferEdges (buildNodes colsSelf) :=
  inferEdges_self_edge_when_first_match (buildNodes colsSelf)
    { id := "n0", ntype := "mongoCollection", posX := 100, posY := 100,
      label := "users",
      fields := [{ name := "_id", ftype := "ObjectId", isPrimaryKey := true, isNullable := false },
                 { name := "userId", ftype := "ObjectId", isPrimaryKey := false, isNullable := true }] }
    { name := "userId", ftype := "ObjectId", isPrimaryKey := false, isNullable := true }
    (by decide) (by decide) (by decide) (by decide) (by decide)

/-- CLAIM C10 counterexample.  With collections `user` (earlier) and
`users` (owning the field `userId`), the owning node's label matches
its field's base plural form, yet the emitted edge is NOT a self-edge:
`find` returns the FIRST matching node, the distinct `user` node. -/
theorem inferEdges_self_edge_refuted :
    toLowerStr "users" = codeBaseName "userId" ++ "s" ∧
    (buildNodes colsC10).map DiagramNode.label = ["user", "users"] ∧
    inferEdges (buildNodes colsC10) =
      [{ source := "n1", target := "n0" }] ∧
    ("n1" : String) ≠ "n0" := by
  refine ⟨rfl, rfl, rfl, by decide⟩

theorem snapMax_append_big (l : List Snapshot) (snap : Snapshot)
    (h : ∀ x ∈ l, x.createdAt < snap.createdAt) :
    snapMax (l ++ [snap]) = some snap := by
  induction l with
  | nil => rfl
  | cons x tl ih =>
    have hx := h x (List.mem_cons_self x tl)
    have htl : ∀ y ∈ tl, y.createdAt < snap.createdAt :=
      fun y hy => h y (List.mem_cons_of_mem x hy)
    rw [List.cons_append, snapMax, ih htl]
    show (if x.createdAt ≥ snap.createdAt then some x else some snap) = some snap
    rw [if_neg (by omega)]

theorem lastVersionQuery_empty (s : Store) (pid : String)
    (h : s.snapshots.filter (fun v => v.projectId == pid) = []) :
    lastVersionQuery s pid = none := by
  unfold lastVersionQuery
  rw [h]
  rfl

theorem lastVersionQuery_append_pid (s : Store) (pid : String) (snap : Snapshot)
    (hpid : snap.projectId = pid)
    (h : ∀ x ∈ s.snapshots, (x.projectId == pid) = true → x.createdAt < snap.createdAt) :
    lastVersionQuery { s with snapshots := s.snapshots ++ [snap] } pid = some snap := by
  unfold lastVersionQuery
  have hfil : (s.snapshots ++ [snap]).filter (fun v => v.projectId == pid) =
      s.snapshots.filter (fun v => v.projectId == pid) ++ [snap] := by
    simp [List.filter_append, hpid]
  rw [show ({ s with snapshots := s.snapshots ++ [snap] } : Store).snapshots =
    s.snapshots ++ [snap] from rfl]
  rw [hfil]
  apply snapMax_append_big
  intro x hx
  obtain ⟨hmem, hp⟩ := List.mem_filter.mp hx
  exact h x hmem hp

theorem saveDiagram_step (p : Project) (snaps : List Snapshot) (pid uid : String)
    (c : Json) (t : Nat) (sid : String) (lastT : Option Nat)
    (hid : p.id = pid) (hnn : p.content ≠ Json.null)
    (hval : validateDiagram c = .ok true)
    (hhash : createHash c ≠ createHash p.content)
    (hthr : ∀ t0, lastT = some t0 → t0 + FIVE_MINUTES < t)
    (hsb : SnapBound ⟨[p], snaps⟩ pid lastT) :
    saveDiagram ⟨[p], snaps⟩ pid c uid none false t sid =
      (⟨[updatedRow p c], snaps ++ [⟨sid, pid, p.content, "Auto-save (Smart)", t⟩]⟩,
       .ok (updatedRow p c)) := by
  have hfind : findUnique ⟨[p], snaps⟩ pid = some p := by
    simp [findUnique, findRow, hid]
  have hread := saveDiagramRead_proceed ⟨[p], snaps⟩ pid c none p hval hfind (Or.inl rfl)
  have hsnapPhase : snapshotPhase ⟨[p], snaps⟩ pid c p false t sid =
      ⟨[p], snaps ++ [⟨sid, pid, p.content, "Auto-save (Smart)", t⟩]⟩ := by
    unfold snapshotPhase
    have hcnd : (createHash p.content != createHash c || false) = true := by
      simp only [Bool.or_false, bne_iff_ne, ne_eq]
      exact fun h => hhash h.symm
    rw [if_pos hcnd]
    have hshould : (false ||
        (match lastVersionQuery ⟨[p], snaps⟩ pid with
         | none => true
         | some lv => decide (t - lv.createdAt > FIVE_MINUTES))) = true := by
      cases lastT with
      | none =>
        have hq : lastVersionQuery ⟨[p], snaps⟩ pid = none :=
          lastVersionQuery_empty ⟨[p], snaps⟩ pid hsb
        simp [hq]
      | some t0 =>
        obtain ⟨⟨x, hx, hxt⟩, _⟩ := hsb
        have hgt : t - x.createdAt > FIVE_MINUTES := by
          have := hthr t0 rfl
          omega
        simp [hx, hgt]
    rw [if_pos hshould]
    have hbk : backupSnap pid p.content false t sid =
        (⟨sid, pid, p.content, "Auto-save (Smart)", t⟩ : Snapshot) := by
      unfold backupSnap
      rw [coalesce_of_ne_null p.content hnn]
      rfl
    rw [hbk]
  have hw : saveDiagramWrite ⟨[p], snaps⟩ pid c p false t sid =
      (⟨[updatedRow p c], snaps ++ [⟨sid, pid, p.content, "Auto-save (Smart)", t⟩]⟩,
       .ok (updatedRow p c)) := by
    unfold saveDiagramWrite
    rw [hsnapPhase]
    rw [updateProject_eq
      { projects := [p],
        snapshots := snaps ++
          [{ id := sid, projectId := pid, content := p.content,
             description := "Auto-save (Smart)", createdAt := t }] }
      pid c p hfind]
    unfold updatedStore
    simp [updateRows, hid]
  unfold saveDiagram
  rw [hread]
  exact hw

theorem runSaves_invariant :
    ∀ (calls : List (Json × Nat × String)) (p : Project) (snaps : List Snapshot)
      (pid uid : String) (lastT : Option Nat),
      p.id = pid → p.content ≠ Json.null →
      ChainOk lastT p.content calls →
      SnapBound ⟨[p], snaps⟩ pid lastT →
      runSaves ⟨[p], snaps⟩ pid uid calls =
        ⟨[{ p with content := (lastContent p.content calls), version := (p.version + calls.length) }],
         snaps ++ expectedSnaps pid p.content calls⟩ ∧
      runSavesOk ⟨[p], snaps⟩ pid uid calls := by
  intro calls
  induction calls with
  | nil =>
    intro p snaps pid uid lastT hid hnn hchain hsb
    refine ⟨?_, trivial⟩
    show (⟨[p], snaps⟩ : Store) = _
    simp [lastContent, expectedSnaps]
  | cons hd tl ih =>
    obtain ⟨c, tc, sid⟩ := hd
    intro p snaps pid uid lastT hid hnn hchain hsb
    obtain ⟨hval, hcnn, hhash, hthr, hchain2⟩ := hchain
    have hlt : ∀ x ∈ snaps, (x.projectId == pid) = true → x.createdAt < tc := by
      intro x hx hbx
      cases lastT with
      | none =>
        have hfil : snaps.filter (fun v => v.projectId == pid) = [] := hsb
        have hmem : x ∈ snaps.filter (fun v => v.projectId == pid) :=
          List.mem_filter.mpr ⟨hx, hbx⟩
        rw [hfil] at hmem
        cases hmem
      | some t0 =>
        have hb := hsb.2 x hx hbx
        have hthr0 := hthr t0 rfl
        omega
    have hstep := saveDiagram_step p snaps pid uid c tc sid lastT hid hnn hval hhash hthr hsb
    have hsb2 : SnapBound
        ⟨[updatedRow p c], snaps ++
          [{ id := sid, projectId := pid, content := p.content,
             description := "Auto-save (Smart)", createdAt := tc }]⟩ pid (some tc) := by
      refine ⟨⟨{ id := sid, projectId := pid, content := p.content, description := "Auto-save (Smart)", createdAt := tc }, ?_, rfl⟩, ?_⟩
      · exact lastVersionQuery_append_pid ⟨[updatedRow p c], snaps⟩ pid _ rfl hlt
      · intro x hx hbx
        rcases List.mem_append.mp hx with hx2 | hx2
        · exact Nat.le_of_lt (hlt x hx2 hbx)
        · rw [List.mem_singleton] at hx2
          subst hx2
          exact Nat.le_refl tc
    have hih := ih (updatedRow p c)
      (snaps ++ [{ id := sid, projectId := pid, content := p.content,
                   description := "Auto-save (Smart)", createdAt := tc }])
      pid uid (some tc) hid hcnn hchain2 hsb2
    have hfst : (saveDiagram ⟨[p], snaps⟩ pid c uid none false tc sid).1 =
        ⟨[updatedRow p c], snaps ++
          [{ id := sid, projectId := pid, content := p.content,
             description := "Auto-save (Smart)", createdAt := tc }]⟩ := by
      rw [hstep]
    constructor
    · show runSaves (saveDiagram ⟨[p], snaps⟩ pid c uid none false tc sid).1 pid uid tl = _
      rw [hfst, hih.1]
      congr 1
      · congr 1
        simp only [updatedRow, lastContent, List.length_cons]
        congr 1
        omega
      · rw [List.append_assoc]
        rfl
    · show (∃ q, (saveDiagram ⟨[p], snaps⟩ pid c uid none false tc sid).2 = .ok q) ∧
        runSavesOk (saveDiagram ⟨[p], snaps⟩ pid c uid none false tc sid).1 pid uid tl
      refine ⟨⟨updatedRow p c, ?_⟩, ?_⟩
      · rw [hstep]
      · rw [hfst]
        exact hih.2

theorem expectedSnaps_length (pid : String) :
    ∀ (calls : List (Json × Nat × String)) (q : Json),
      (expectedSnaps pid q calls).length = calls.length
  | [], _ => rfl
  | (c, t, sid) :: rest, q => by
    simp [expectedSnaps, expectedSnaps_length pid rest c]

theorem expectedSnaps_get (pid : String) :
    ∀ (calls : List (Json × Nat × String)) (q : Json) (k : Nat), k < calls.length →
      ((expectedSnaps pid q calls)[k]?).map Snapshot.content =
        (q :: calls.map Prod.fst)[k]?
  | [], _, k, hk => absurd hk (Nat.not_lt_zero k)
  | (c, t, sid) :: rest, q, 0, _ => by simp [expectedSnaps]
  | (c, t, sid) :: rest, q, (k + 1), hk => by
    have hk2 : k < rest.length := by simpa using hk
    have hrec := expectedSnaps_get pid rest c k hk2
    simpa [expectedSnaps] using hrec

/-- CLAIM C3.  Starting from version 0 with no snapshots, after `N`
successful sequential `saveDiagram` calls — each with valid non-null
content whose fingerprint differs from the state it overwrites, and
each arriving more than the five-minute throttling window after the
previous snapshot — every call succeeds, the project's version equals
`N`, exactly `N` snapshots exist, and the k-th snapshot's content
equals the project state BEFORE the k-th save (the pre-mutation state,
not the new one). -/
theorem runSaves_version_and_snapshots
    (p : Project) (pid uid : String) (calls : List (Json × Nat × String))
    (hid : p.id = pid) (hver : p.version = 0) (hnn : p.content ≠ Json.null)
    (hchain : ChainOk none p.content calls) :
    runSavesOk ⟨[p], []⟩ pid uid calls ∧
    findUnique (runSaves ⟨[p], []⟩ pid uid calls) pid =
      some { p with content := (lastContent p.content calls), version := calls.length } ∧
    (runSaves ⟨[p], []⟩ pid uid calls).snapshots.length = calls.length ∧
    (∀ k, k < calls.length →
      (((runSaves ⟨[p], []⟩ pid uid calls).snapshots)[k]?).map Snapshot.content =
        (p.content :: calls.map Prod.fst)[k]?) := by
  have hsb : SnapBound ⟨[p], []⟩ pid none := by
    show (List.filter (fun v => v.projectId == pid) []) = []
    rfl
  obtain ⟨heq, hok⟩ := runSaves_invariant calls p [] pid uid none hid hnn hchain hsb
  refine ⟨hok, ?_, ?_, ?_⟩
  · rw [heq]
    simp [findUnique, findRow, hid, hver]
  · rw [heq]
    show ([] ++ expectedSnaps pid p.content calls).length = calls.length
    rw [List.nil_append]
    exact expectedSnaps_length pid calls p.content
  · intro k hk
    rw [heq]
    show ((([] ++ expectedSnaps pid p.content calls))[k]?).map Snapshot.content = _
    rw [List.nil_append]
    exact expectedSnaps_get pid calls p.content k hk

/-- Witness for C3 at a concrete input: two saves (`contentA` then
`contentB`) on a fresh project, 400 seconds apart, yield version 2 and
exactly two snapshots holding the two pre-states. -/
theorem runSaves_version_and_snapshots_witness :
    runSavesOk ⟨[pW], []⟩ "p1" "u1" callsW ∧
    findUnique (runSaves ⟨[pW], []⟩ "p1" "u1" callsW) "p1" =
      some { pW with content := contentB, version := 2 } ∧
    (runSaves ⟨[pW], []⟩ "p1" "u1" callsW).snapshots.length = 2 ∧
    (((runSaves ⟨[pW], []⟩ "p1" "u1" callsW).snapshots)[0]?).map Snapshot.content =
      some (Json.obj .nil) ∧
    (((runSaves ⟨[pW], []⟩ "p1" "u1" callsW).snapshots)[1]?).map Snapshot.content =
      some contentA := by
  have hchain : ChainOk none pW.content callsW :=
    ⟨rfl, fun h => Json.noConfusion h, by decide, fun t0 h => Option.noConfusion h,
     rfl, fun h => Json.noConfusion h, by decide,
     fun t0 h => by injection h with h2; subst h2; decide,
     trivial⟩
  have h := runSaves_version_and_snapshots pW "p1" "u1" callsW rfl rfl
    (fun h => Json.noConfusion h) hchain
  exact ⟨h.1, h.2.1, h.2.2.1, h.2.2.2 0 (by decide), h.2.2.2 1 (by decide)⟩

/-- Witness for C6 at a concrete input: a small truthy object content
satisfying all four rules is accepted. -/
theorem validateDiagram_characterization_witness :
    validateDiagram contentA = Except.ok true :=
  (validateDiagram_characterization contentA).mpr
    (Or.inr ⟨by decide, rfl, rfl, rfl, rfl⟩)
